import Mathlib

/-!
Verification of the HDFS typedbytes reader/writer module (`_hdfs.py`):
a shallow embedding of `readtb` (the multi-file record-stream multiplexer),
`writetb` (the single-sink record writer) and `_checked_hadoop_fs_command`
(the checked command wrapper), with theorems settling the specification
claims about them.

Paths are modelled as `List Char` (Python strings are character sequences);
records are opaque payloads.  Fallible Python operations (an `ls` that
raises IOError, `keep_file` on an empty basename raising IndexError) are
modelled with `Option`/`Except`.  The nondeterminism of `select.select`
is modelled by a schedule: a list of indices choosing, at each iteration
of the read loop, which currently active source is serviced next; the
readiness sets of a real run correspond to some schedule, so properties
proved for every schedule cover every real interleaving.
-/

namespace Hdfs

/-- Records are opaque key/value payloads; this layer never inspects them. -/
abbrev Rec := Nat

/-- A path (a Python string, modelled as its character sequence). -/
abbrev HPath := List Char

/-- Model of the external world `readtb` consults: the `hadoop fs -ls`
listing of each root (a root absent from `listing` makes `ls` raise
IOError), and for each concrete file the record stream its
`dumptb` subprocess writes to the pipe, together with that subprocess
exit code (collected by `p.wait()` at retirement and never inspected). -/
structure FS where
  listing  : List (HPath × List HPath)
  contents : List (HPath × (List Rec × Int))
  deriving Repr, DecidableEq

/-- `hadoopy.ls root`: `none` models the IOError path of `ls`. -/
def lsModel (fs : FS) (r : HPath) : Option (List HPath) :=
  fs.listing.lookup r

/-- The decoded record stream of one file (the output of `dumptb path`
as decoded by the `TypedBytesFile` wrapped around the read pipe). -/
def fileRecs (fs : FS) (p : HPath) : List Rec :=
  ((fs.contents.lookup p).getD ([], 0)).1

/-- The exit code of the `dumptb` subprocess for one file. -/
def fileCode (fs : FS) (p : HPath) : Int :=
  ((fs.contents.lookup p).getD ([], 0)).2

/-- `os.path.basename`: the part of the path after the last slash. -/
def basename (p : HPath) : HPath :=
  (p.splitOn '/').getLastD p

/-- `keep_file = lambda x: os.path.basename(x)[0] != '_'` from
`readtb._path_gen`: `none` models the IndexError Python raises when the
basename is empty. -/
def keepFile (p : HPath) : Option Bool :=
  match basename p with
  | [] => none
  | c :: _ => some (c != '_')

/-- `filter(keep_file, all_paths)`: `none` when `keep_file` raises. -/
def filterKeep : List HPath → Option (List HPath)
  | [] => some []
  | p :: ps =>
    match keepFile p, filterKeep ps with
    | some b, some rest => some (if b then p :: rest else rest)
    | _, _ => none

/-- The concrete files one root contributes to the enumeration: its `ls`
listing, underscore-filtered when `ignore_logs` is set (a root whose
listing is missing or whose filtering crashes contributes nothing here;
the run itself aborts with an error at that root). -/
def rootFiles (fs : FS) (il : Bool) (r : HPath) : List HPath :=
  match lsModel fs r with
  | none => []
  | some all => if il then (filterKeep all).getD [] else all

/-- All concrete files `_path_gen` produces across the given roots, in
enumeration order. -/
def enumPaths (fs : FS) (il : Bool) (paths : List HPath) : List HPath :=
  (paths.map (rootFiles fs il)).flatten

/-- The observable effects of a `readtb` run: `ls` invocations, `dumptb`
subprocess spawns (`_open_tb`), and the `p.wait()` collecting a retired
subprocess (its exit code is recorded here and nowhere else). -/
inductive Event where
  | lsCall (root : HPath)
  | spawn (path : HPath)
  | waitProc (path : HPath) (code : Int)
  deriving Repr, DecidableEq

/-- Errors a `readtb` run can raise: the re-raised
IOError naming the root whose listing failed, and the IndexError of
`keep_file` on an empty basename. -/
inductive Err where
  | noSuchFile (root : HPath)
  | indexError
  deriving Repr, DecidableEq

/-- The suspended state of the `_path_gen` generator: the not yet opened
files of the current root, and the roots not yet listed. -/
structure PGState where
  current : List HPath
  roots   : List HPath
  deriving Repr, DecidableEq

/-- Advance `_path_gen` across roots until a root contributes a file, the
roots run out, or an `ls`/filter failure is raised. -/
def pgSeek (fs : FS) (il : Bool) :
    List HPath → List Event × Except Err (Option (HPath × List HPath × List HPath))
  | [] => ([], Except.ok none)
  | r :: rs =>
    match lsModel fs r with
    | none => ([Event.lsCall r], Except.error (Err.noSuchFile r))
    | some all =>
      match (if il then filterKeep all else some all) with
      | none => ([Event.lsCall r], Except.error Err.indexError)
      | some [] =>
        let res := pgSeek fs il rs
        (Event.lsCall r :: res.1, res.2)
      | some (p :: ps) => ([Event.lsCall r], Except.ok (some (p, ps, rs)))

/-- One `path_gen.next()` call: yield the next file (spawning its `dumptb`
subprocess via `_open_tb`), or signal exhaustion (StopIteration), or raise. -/
def pgNext (fs : FS) (il : Bool) (pg : PGState) :
    List Event × Except Err (Option (HPath × PGState)) :=
  match pg.current with
  | p :: ps => ([Event.spawn p], Except.ok (some (p, ⟨ps, pg.roots⟩)))
  | [] =>
    match pgSeek fs il pg.roots with
    | (evs, Except.error e) => (evs, Except.error e)
    | (evs, Except.ok none) => (evs, Except.ok none)
    | (evs, Except.ok (some (p, ps, rs))) =>
      (evs ++ [Event.spawn p], Except.ok (some (p, ⟨ps, rs⟩)))

/-- The files a (possibly exhausted, `none`) generator state will still
produce, in order. -/
def pgFilesOf (fs : FS) (il : Bool) : Option PGState → List HPath
  | none => []
  | some pg => pg.current ++ (pg.roots.map (rootFiles fs il)).flatten

/-- A `Source`: one activated file, with the serial number of its
activation (`_open_tb` call), its path, and the records its decoder has
not yet produced. -/
structure Source where
  id   : Nat
  path : HPath
  rem  : List Rec
  deriving Repr, DecidableEq

/-- Default source used with `List.getD` (never reached: indices are
always reduced modulo the active count). -/
def dfltSrc : Source := ⟨0, [], []⟩

/-- The multiplexer state: the active sources (the `read_fds` set with
`procs`/`tb_fps`), the `_path_gen` state (`none` once `path_gen = None`),
and the next activation serial number. -/
structure RState where
  active : List Source
  pg     : Option PGState
  nextId : Nat
  deriving Repr, DecidableEq

/-- One guarded `path_gen.next()` of `readtb`: `AttributeError`/
`StopIteration` are swallowed (setting `path_gen = None`), an IOError
propagates; a yielded file becomes a new active source. -/
def activateOnce (fs : FS) (il : Bool) (s : RState) : List Event × Except Err RState :=
  match s.pg with
  | none => ([], Except.ok s)
  | some pg =>
    match pgNext fs il pg with
    | (evs, Except.error e) => (evs, Except.error e)
    | (evs, Except.ok none) => (evs, Except.ok ⟨s.active, none, s.nextId⟩)
    | (evs, Except.ok (some (p, pg'))) =>
      (evs, Except.ok ⟨s.active ++ [⟨s.nextId, p, fileRecs fs p⟩], some pg', s.nextId + 1⟩)

/-- The initial activation loop `for x in range(num_procs)`: `n` guarded
`path_gen.next()` calls.  Also records the active count after each call
(the concurrency snapshots of the fill phase). -/
def initActivate (fs : FS) (il : Bool) : Nat → RState → List Event × List Nat × Except Err RState
  | 0, s => ([], [], Except.ok s)
  | n + 1, s =>
    match activateOnce fs il s with
    | (evs, Except.error e) => (evs, [], Except.error e)
    | (evs, Except.ok s') =>
      let rest := initActivate fs il n s'
      (evs ++ rest.1, s'.active.length :: rest.2.1, rest.2.2)

/-- A yielded record, tagged (as a proof device) with the activation
serial number and path of the source that produced it; the Python
generator yields only the record itself, the third component. -/
abbrev Yld := Nat × HPath × Rec

/-- How a run of the read loop ends: normal termination (`read_fds`
empty), a raised error, or an exhausted schedule (the run was cut short
by the modelling fuel, not by the program). -/
inductive ROutcome where
  | ok
  | err (e : Err)
  | outOfSched
  deriving Repr, DecidableEq

/-- A concurrency snapshot: (number of active sources, number of
enumerated-but-not-yet-activated files). -/
def snap (fs : FS) (il : Bool) (s : RState) : Nat × Nat :=
  (s.active.length, (pgFilesOf fs il s.pg).length)

/-- The `while read_fds:` loop of `readtb`.  Each schedule entry selects
(modulo the active count) which ready source is serviced: its decoder
either produces one record (yielded to the caller) or signals
end-of-stream, upon which the source is retired (`p.wait()`, drop from
all maps) and one backfilling `path_gen.next()` runs.  A snapshot is
recorded at every loop entry. -/
def runLoop (fs : FS) (il : Bool) :
    List Nat → RState → List Event × List Yld × List (Nat × Nat) × ROutcome
  | [], s =>
    ([], [], [snap fs il s],
      if s.active.isEmpty then ROutcome.ok else ROutcome.outOfSched)
  | i :: sched', s =>
    match s.active with
    | [] => ([], [], [snap fs il s], ROutcome.ok)
    | _ :: _ =>
      let k := i % s.active.length
      let src := s.active.getD k dfltSrc
      match src.rem with
      | r :: rs =>
        let s' : RState := ⟨s.active.set k ⟨src.id, src.path, rs⟩, s.pg, s.nextId⟩
        let rest := runLoop fs il sched' s'
        (rest.1, (src.id, src.path, r) :: rest.2.1, snap fs il s :: rest.2.2.1, rest.2.2.2)
      | [] =>
        let s1 : RState := ⟨s.active.eraseIdx k, s.pg, s.nextId⟩
        match activateOnce fs il s1 with
        | (evs, Except.error e) =>
          (Event.waitProc src.path (fileCode fs src.path) :: evs, [],
            [snap fs il s], ROutcome.err e)
        | (evs, Except.ok s2) =>
          let rest := runLoop fs il sched' s2
          (Event.waitProc src.path (fileCode fs src.path) :: evs ++ rest.1,
            rest.2.1, snap fs il s :: rest.2.2.1, rest.2.2.2)

/-- Everything observable about one `readtb` run: events, yielded records
(tagged with their source), concurrency snapshots of the fill phase and
of the read loop, and the outcome. -/
structure Run where
  trace : List Event
  yields : List Yld
  initSnaps : List Nat
  snaps : List (Nat × Nat)
  outcome : ROutcome
  deriving Repr, DecidableEq

/-- The state of `readtb` before any activation: no source, the
`_path_gen` generator freshly created over the given roots. -/
def initState (paths : List HPath) : RState := ⟨[], some ⟨[], paths⟩, 0⟩

/-- A full `readtb` iteration: initial fill to `num_procs`, then the read
loop, driven by the given schedule. -/
def readtbRun (fs : FS) (paths : List HPath) (il : Bool) (np : Nat)
    (sched : List Nat) : Run :=
  match initActivate fs il np (initState paths) with
  | (evs, cs, Except.error e) => ⟨evs, [], cs, [], ROutcome.err e⟩
  | (evs, cs, Except.ok s1) =>
    let rest := runLoop fs il sched s1
    ⟨evs ++ rest.1, rest.2.1, cs, rest.2.2.1, rest.2.2.2⟩

/-- The value `readtb(paths, ignore_logs, num_procs)` returns.  The body
of `readtb` contains `yield`, so in Python the call builds a suspended
generator and executes none of the body; the embedding mirrors this: the
call takes no filesystem and performs no effect, it only stores the
arguments. -/
structure ReadtbGen where
  paths : List HPath
  ignore_logs : Bool
  num_procs : Nat
  deriving Repr, DecidableEq

/-- `readtb` itself (the call, not the iteration). -/
def readtb (paths : List HPath) (ignore_logs : Bool) (num_procs : Nat) : ReadtbGen :=
  ⟨paths, ignore_logs, num_procs⟩

/-- Iterating the generator returned by `readtb`: only now does the body
run against the filesystem. -/
def forceRun (g : ReadtbGen) (fs : FS) (sched : List Nat) : Run :=
  readtbRun fs g.paths g.ignore_logs g.num_procs sched

/-! ## The writer `writetb` and the checked command wrapper -/

/-- A key/value record handed to `writetb` (opaque payload). -/
abbrev KV := Nat × Nat

/-- The behaviour of the `loadtb` loader subprocess `writetb` spawns:
`diesAt = some d` means the poll before pushing record `d` (0-based) is
the first to report the loader exited; `exitCode` is what `p.wait()`
returns at the end; the captured streams are what `p.communicate()`
would return. -/
structure Loader where
  diesAt : Option Nat
  exitCode : Int
  stdoutCap : List Char
  stderrCap : List Char
  deriving Repr, DecidableEq

/-- `p.poll() is not None` before pushing record `i`. -/
def pollExited (ld : Loader) (i : Nat) : Bool :=
  match ld.diesAt with
  | none => false
  | some d => decide (d ≤ i)

/-- The pipe-side effects of `writetb` after the record loop:
`tb_fp.flush()`, the close performed by the `with` block exit, and the
final `p.wait()`. -/
inductive WEvent where
  | flushEv
  | closeEv
  | waitEv
  deriving Repr, DecidableEq

/-- How `writetb` ends: a normal return (carrying the exit code that
`p.wait()` returned and the code then ignored), or the IOError raised
when the poll saw the loader dead, carrying the captured output of
`p.communicate()`. -/
inductive WResult where
  | ret (code : Int)
  | childQuit (capturedOut capturedErr : List Char)
  deriving Repr, DecidableEq

/-- The record loop of `writetb`, from record index `i`: poll first, fail
on a dead loader, otherwise encode and push.  Returns the records
actually pushed, the pipe events, and the result. -/
def writetbGo (ld : Loader) : Nat → List KV → List KV × List WEvent × WResult
  | _, [] => ([], [WEvent.flushEv, WEvent.closeEv, WEvent.waitEv], WResult.ret ld.exitCode)
  | i, kv :: rest =>
    if pollExited ld i then
      ([], [WEvent.closeEv], WResult.childQuit ld.stdoutCap ld.stderrCap)
    else
      let r := writetbGo ld (i + 1) rest
      (kv :: r.1, r.2)

/-- `writetb(path, kvs)` against a loader with the given behaviour:
(records pushed into the pipe, pipe events, result). -/
def writetb (ld : Loader) (kvs : List KV) : List KV × List WEvent × WResult :=
  writetbGo ld 0 kvs

/-- The captured outcome of one spawned command: its exit code and
captured stdout/stderr (`p.communicate()`). -/
structure CmdResult where
  rcode : Int
  out : List Char
  errOut : List Char
  deriving Repr, DecidableEq

/-- What `_checked_hadoop_fs_command` produces: the `(rcode, stdout,
stderr)` triple on success, or the raised IOError carrying the command
text and the captured stderr (Python formats them into the message
`Ran[cmd]: stderr`; the payload is modelled structurally). -/
inductive CheckedResult where
  | ok (rcode : Int) (out errOut : List Char)
  | ioError (cmd : List Char) (errOut : List Char)
  deriving Repr, DecidableEq

/-- `_checked_hadoop_fs_command`: raise iff the exit code is nonzero.
(The Python test is `rcode is not 0`; for CPython small integers identity
agrees with equality, so it behaves as `rcode != 0`.) -/
def checkedFsCommand (cmd : List Char) (res : CmdResult) : CheckedResult :=
  if res.rcode ≠ 0 then CheckedResult.ioError cmd res.errOut
  else CheckedResult.ok res.rcode res.out res.errOut

/-! ## Proof-device measures over the multiplexer state -/

/-- The multiset of records still buffered in the active sources. -/
def activeMS (s : RState) : Multiset Rec :=
  (s.active.map (fun t => (t.rem : Multiset Rec))).sum

/-- The multiset of records of the files not yet activated. -/
def pendMS (fs : FS) (il : Bool) (s : RState) : Multiset Rec :=
  ((pgFilesOf fs il s.pg).map (fun p => (fileRecs fs p : Multiset Rec))).sum

/-- The number of enumerated files not yet activated. -/
def pendLen (fs : FS) (il : Bool) (s : RState) : Nat :=
  (pgFilesOf fs il s.pg).length

/-- The records the source with activation serial `id` has still to
deliver from the given state: the buffered remainder if `id` is active,
nothing if it is retired, the whole file if it is still pending. -/
def remAll (fs : FS) (il : Bool) (s : RState) (id : Nat) : List Rec :=
  ((s.active.filter (fun t => t.id == id)).map Source.rem).flatten ++
    (if id < s.nextId then []
     else ((pgFilesOf fs il s.pg).map (fileRecs fs)).getD (id - s.nextId) [])

/-- Structural invariant of the multiplexer state: every active source
carries a serial number below the counter, and serial numbers are
pairwise distinct. -/
def InvBase (s : RState) : Prop :=
  (∀ t ∈ s.active, t.id < s.nextId) ∧ (s.active.map Source.id).Nodup

/-- With no active source left, no pending file remains either (holds
from the first activation on; the read loop never re-enters a state
violating it). -/
def HE (fs : FS) (il : Bool) (s : RState) : Prop :=
  s.active = [] → pgFilesOf fs il s.pg = []

/-! ## Concrete fixtures for witnesses and counterexamples -/

/-- A world with one root `r` listing files `a` (records 1, 2) and `b`
(record 3); all dump subprocesses exit 0. -/
def fsW : FS :=
  ⟨[(['r'], [['a'], ['b']])], [(['a'], ([1, 2], 0)), (['b'], ([3], 0))]⟩

/-- `fsW` with the dump subprocess exit codes changed to nonzero: same
listings, same record streams, different exit statuses. -/
def fsW2 : FS :=
  ⟨[(['r'], [['a'], ['b']])], [(['a'], ([1, 2], 1)), (['b'], ([3], 2))]⟩

/-- A directory `d` holding a cluster marker file `d/_S` (basename starts
with the underscore) and a data file `d/p0`. -/
def fsEx : FS :=
  ⟨[(['d'], [['d', '/', '_', 'S'], ['d', '/', 'p', '0']])],
   [(['d', '/', '_', 'S'], ([9], 0)), (['d', '/', 'p', '0'], ([1, 2], 0))]⟩

/-- A world where root `r` exists (one file `a` with one record) and root
`b` does not: `ls b` fails. -/
def fsBad : FS := ⟨[(['r'], [['a']])], [(['a'], ([5], 0))]⟩


end Hdfs

namespace Hdfs

/-! ## List helper lemmas -/

lemma getD_mem {α : Type} (d : α) :
    ∀ (l : List α) (k : Nat), k < l.length → l.getD k d ∈ l := by
  intro l
  induction l with
  | nil => intro k hk; simp at hk
  | cons a l ih =>
    intro k hk
    cases k with
    | zero => simp
    | succ k =>
      have hk' : k < l.length := by simpa using hk
      simpa using Or.inr (ih k hk')

lemma sum_map_set {α M : Type} [AddCommMonoid M] (f : α → M) (d : α) :
    ∀ (l : List α) (k : Nat) (b : α), k < l.length →
      ((l.set k b).map f).sum + f (l.getD k d) = (l.map f).sum + f b := by
  intro l
  induction l with
  | nil => intro k b hk; simp at hk
  | cons a l ih =>
    intro k b hk
    cases k with
    | zero =>
      show (f b + (l.map f).sum) + f a = (f a + (l.map f).sum) + f b
      abel
    | succ k =>
      have hk' : k < l.length := by simpa using hk
      show (f a + ((l.set k b).map f).sum) + f (l.getD k d)
        = (f a + (l.map f).sum) + f b
      rw [add_assoc, ih k b hk', ← add_assoc]

lemma sum_map_eraseIdx {α M : Type} [AddCommMonoid M] (f : α → M) (d : α) :
    ∀ (l : List α) (k : Nat), k < l.length →
      ((l.eraseIdx k).map f).sum + f (l.getD k d) = (l.map f).sum := by
  intro l
  induction l with
  | nil => intro k hk; simp at hk
  | cons a l ih =>
    intro k hk
    cases k with
    | zero =>
      show (l.map f).sum + f a = f a + (l.map f).sum
      exact add_comm _ _
    | succ k =>
      have hk' : k < l.length := by simpa using hk
      show (f a + ((l.eraseIdx k).map f).sum) + f (l.getD k d)
        = f a + (l.map f).sum
      rw [add_assoc, ih k hk']

lemma getD_map {α β : Type} (f : α → β) (d : β) (d' : α) :
    ∀ (l : List α) (k : Nat), k < l.length → (l.map f).getD k d = f (l.getD k d') := by
  intro l
  induction l with
  | nil => intro k hk; simp at hk
  | cons a l ih =>
    intro k hk
    cases k with
    | zero => simp
    | succ k =>
      have hk' : k < l.length := by simpa using hk
      simpa using ih k hk'

lemma length_eraseIdx' {α : Type} :
    ∀ (l : List α) (k : Nat), k < l.length → (l.eraseIdx k).length = l.length - 1 := by
  intro l
  induction l with
  | nil => intro k hk; simp at hk
  | cons a l ih =>
    intro k hk
    cases k with
    | zero => simp
    | succ k =>
      have hk' : k < l.length := by simpa using hk
      have := ih k hk'
      show (a :: l.eraseIdx k).length = l.length
      simp only [List.length_cons, this]
      omega

end Hdfs

namespace Hdfs

/-! ## Filter lemmas for lists of sources with distinct ids -/

lemma filter_id_getD :
    ∀ (l : List Source) (k : Nat), k < l.length → (l.map Source.id).Nodup →
      l.filter (fun t => t.id == (l.getD k dfltSrc).id) = [l.getD k dfltSrc] := by
  intro l
  induction l with
  | nil => intro k hk _; simp at hk
  | cons a l ih =>
    intro k hk hnd
    rw [List.map_cons, List.nodup_cons] at hnd
    cases k with
    | zero =>
      simp only [List.getD_cons_zero, List.filter_cons, beq_self_eq_true, if_true]
      have : l.filter (fun t => t.id == a.id) = [] := by
        refine List.filter_eq_nil_iff.mpr ?_
        intro t ht
        simp only [beq_iff_eq]
        exact fun he => hnd.1 (he ▸ List.mem_map_of_mem Source.id ht)
      simp [this]
    | succ k =>
      have hk' : k < l.length := by simpa using hk
      have hmem : (l.getD k dfltSrc).id ∈ l.map Source.id :=
        List.mem_map_of_mem Source.id (getD_mem dfltSrc l k hk')
      have hne : (a.id == (l.getD k dfltSrc).id) = false := by
        simp only [beq_eq_false_iff_ne]
        exact fun he => hnd.1 (he ▸ hmem)
      simp only [List.getD_cons_succ, List.filter_cons, hne, if_false]
      exact ih k hk' hnd.2

lemma filter_set_id_eq :
    ∀ (l : List Source) (k : Nat) (b : Source), k < l.length →
      (l.map Source.id).Nodup → b.id = (l.getD k dfltSrc).id →
      (l.set k b).filter (fun t => t.id == b.id) = [b] := by
  intro l
  induction l with
  | nil => intro k b hk _ _; simp at hk
  | cons a l ih =>
    intro k b hk hnd hb
    rw [List.map_cons, List.nodup_cons] at hnd
    cases k with
    | zero =>
      rw [List.getD_cons_zero] at hb
      show (b :: l).filter (fun t => t.id == b.id) = [b]
      simp only [List.filter_cons, beq_self_eq_true, if_true]
      have : l.filter (fun t => t.id == b.id) = [] := by
        refine List.filter_eq_nil_iff.mpr ?_
        intro t ht
        simp only [beq_iff_eq]
        exact fun he => hnd.1 (hb ▸ he ▸ List.mem_map_of_mem Source.id ht)
      simp [this]
    | succ k =>
      have hk' : k < l.length := by simpa using hk
      rw [List.getD_cons_succ] at hb
      have hmem : (l.getD k dfltSrc).id ∈ l.map Source.id :=
        List.mem_map_of_mem Source.id (getD_mem dfltSrc l k hk')
      have hne : (a.id == b.id) = false := by
        simp only [beq_eq_false_iff_ne]
        exact fun he => hnd.1 (he ▸ hb ▸ hmem)
      show (a :: l.set k b).filter (fun t => t.id == b.id) = [b]
      simp only [List.filter_cons, hne, if_false]
      exact ih k b hk' hnd.2 hb

lemma filter_set_id_ne :
    ∀ (l : List Source) (k : Nat) (b : Source) (id : Nat), k < l.length →
      b.id = (l.getD k dfltSrc).id → id ≠ b.id →
      (l.set k b).filter (fun t => t.id == id) = l.filter (fun t => t.id == id) := by
  intro l
  induction l with
  | nil => intro k b id hk _ _; simp at hk
  | cons a l ih =>
    intro k b id hk hb hne
    cases k with
    | zero =>
      rw [List.getD_cons_zero] at hb
      show (b :: l).filter (fun t => t.id == id) = (a :: l).filter (fun t => t.id == id)
      have h1 : (b.id == id) = false := by
        simp only [beq_eq_false_iff_ne]; exact fun he => hne he.symm
      have h2 : (a.id == id) = false := by
        simp only [beq_eq_false_iff_ne]; exact fun he => hne (hb ▸ he).symm
      simp [List.filter_cons, h1, h2]
    | succ k =>
      have hk' : k < l.length := by simpa using hk
      rw [List.getD_cons_succ] at hb
      show (a :: l.set k b).filter (fun t => t.id == id)
        = (a :: l).filter (fun t => t.id == id)
      simp only [List.filter_cons]
      rw [ih k b id hk' hb hne]

lemma filter_eraseIdx_id_ne :
    ∀ (l : List Source) (k : Nat) (id : Nat), k < l.length →
      (l.getD k dfltSrc).id ≠ id →
      (l.eraseIdx k).filter (fun t => t.id == id) = l.filter (fun t => t.id == id) := by
  intro l
  induction l with
  | nil => intro k id hk _; simp at hk
  | cons a l ih =>
    intro k id hk hne
    cases k with
    | zero =>
      rw [List.getD_cons_zero] at hne
      have h1 : (a.id == id) = false := by simp only [beq_eq_false_iff_ne]; exact hne
      show l.filter (fun t => t.id == id) = (a :: l).filter (fun t => t.id == id)
      simp [List.filter_cons, h1]
    | succ k =>
      have hk' : k < l.length := by simpa using hk
      rw [List.getD_cons_succ] at hne
      show (a :: l.eraseIdx k).filter (fun t => t.id == id)
        = (a :: l).filter (fun t => t.id == id)
      simp only [List.filter_cons]
      rw [ih k id hk' hne]

lemma filter_eraseIdx_id_eq :
    ∀ (l : List Source) (k : Nat), k < l.length → (l.map Source.id).Nodup →
      (l.eraseIdx k).filter (fun t => t.id == (l.getD k dfltSrc).id) = [] := by
  intro l
  induction l with
  | nil => intro k hk _; simp at hk
  | cons a l ih =>
    intro k hk hnd
    rw [List.map_cons, List.nodup_cons] at hnd
    cases k with
    | zero =>
      rw [List.getD_cons_zero]
      show l.filter (fun t => t.id == a.id) = []
      refine List.filter_eq_nil_iff.mpr ?_
      intro t ht
      simp only [beq_iff_eq]
      exact fun he => hnd.1 (he ▸ List.mem_map_of_mem Source.id ht)
    | succ k =>
      have hk' : k < l.length := by simpa using hk
      rw [List.getD_cons_succ]
      have hmem : (l.getD k dfltSrc).id ∈ l.map Source.id :=
        List.mem_map_of_mem Source.id (getD_mem dfltSrc l k hk')
      have hne : (a.id == (l.getD k dfltSrc).id) = false := by
        simp only [beq_eq_false_iff_ne]
        exact fun he => hnd.1 (he ▸ hmem)
      show (a :: l.eraseIdx k).filter (fun t => t.id == (l.getD k dfltSrc).id) = []
      simp only [List.filter_cons, hne, if_false]
      exact ih k hk' hnd.2

lemma map_id_set_eq :
    ∀ (l : List Source) (k : Nat) (b : Source), k < l.length →
      b.id = (l.getD k dfltSrc).id →
      (l.set k b).map Source.id = l.map Source.id := by
  intro l
  induction l with
  | nil => intro k b hk _; simp at hk
  | cons a l ih =>
    intro k b hk hb
    cases k with
    | zero =>
      rw [List.getD_cons_zero] at hb
      show b.id :: l.map Source.id = a.id :: l.map Source.id
      rw [hb]
    | succ k =>
      have hk' : k < l.length := by simpa using hk
      rw [List.getD_cons_succ] at hb
      show a.id :: (l.set k b).map Source.id = a.id :: l.map Source.id
      rw [ih k b hk' hb]

lemma map_id_eraseIdx :
    ∀ (l : List Source) (k : Nat),
      (l.eraseIdx k).map Source.id = (l.map Source.id).eraseIdx k := by
  intro l
  induction l with
  | nil => intro k; simp
  | cons a l ih =>
    intro k
    cases k with
    | zero => rfl
    | succ k =>
      show a.id :: (l.eraseIdx k).map Source.id = a.id :: (l.map Source.id).eraseIdx k
      rw [ih k]

end Hdfs

namespace Hdfs

/-! ## Path-generator lemmas -/

lemma rootFiles_of_ls {fs : FS} {il : Bool} {r : HPath} {all files : List HPath}
    (hls : lsModel fs r = some all)
    (hfl : (if il then filterKeep all else some all) = some files) :
    rootFiles fs il r = files := by
  unfold rootFiles
  rw [hls]
  cases il with
  | false =>
    simp only [if_false, Bool.false_eq_true] at hfl ⊢
    exact Option.some.inj hfl
  | true =>
    simp only [if_true] at hfl ⊢
    rw [hfl]
    rfl

lemma pgSeek_none (fs : FS) (il : Bool) :
    ∀ (rs : List HPath), (pgSeek fs il rs).2 = Except.ok none →
      (rs.map (rootFiles fs il)).flatten = [] := by
  intro rs
  induction rs with
  | nil => intro _; simp
  | cons r rs ih =>
    intro h
    cases hls : lsModel fs r with
    | none => simp [pgSeek, hls] at h
    | some all =>
      simp only [pgSeek, hls] at h
      cases hfl : (if il then filterKeep all else some all) with
      | none => rw [hfl] at h; simp at h
      | some files =>
        rw [hfl] at h
        cases files with
        | nil =>
          simp only [] at h
          have hroot : rootFiles fs il r = [] := rootFiles_of_ls hls hfl
          simp [hroot, ih h]
        | cons p ps => simp at h

lemma pgSeek_some (fs : FS) (il : Bool) :
    ∀ (rs : List HPath) (p : HPath) (ps rs' : List HPath),
      (pgSeek fs il rs).2 = Except.ok (some (p, ps, rs')) →
      (rs.map (rootFiles fs il)).flatten
        = p :: (ps ++ (rs'.map (rootFiles fs il)).flatten) := by
  intro rs
  induction rs with
  | nil => intro p ps rs' h; simp [pgSeek] at h
  | cons r rs ih =>
    intro p ps rs' h
    cases hls : lsModel fs r with
    | none => simp [pgSeek, hls] at h
    | some all =>
      simp only [pgSeek, hls] at h
      cases hfl : (if il then filterKeep all else some all) with
      | none => rw [hfl] at h; simp at h
      | some files =>
        rw [hfl] at h
        cases files with
        | nil =>
          simp only [] at h
          have hroot : rootFiles fs il r = [] := rootFiles_of_ls hls hfl
          simp [hroot, ih p ps rs' h]
        | cons q qs =>
          have hroot : rootFiles fs il r = q :: qs := rootFiles_of_ls hls hfl
          simp only [Except.ok.injEq, Option.some.injEq, Prod.mk.injEq] at h
          obtain ⟨hq, hqs, hrs⟩ := h
          subst hq
          subst hqs
          subst hrs
          simp [hroot]

lemma pgNext_none {fs : FS} {il : Bool} {pg : PGState}
    (h : (pgNext fs il pg).2 = Except.ok none) :
    pgFilesOf fs il (some pg) = [] := by
  unfold pgNext at h
  cases hc : pg.current with
  | cons q qs => rw [hc] at h; simp at h
  | nil =>
    rw [hc] at h
    show pg.current ++ (pg.roots.map (rootFiles fs il)).flatten = []
    rw [hc, List.nil_append]
    cases hsk : pgSeek fs il pg.roots with
    | mk evs res =>
      rw [hsk] at h
      cases res with
      | error e => simp at h
      | ok o =>
        cases o with
        | none => exact pgSeek_none fs il pg.roots (by rw [hsk])
        | some t => simp at h

lemma pgNext_some {fs : FS} {il : Bool} {pg : PGState} {p : HPath} {pg' : PGState}
    (h : (pgNext fs il pg).2 = Except.ok (some (p, pg'))) :
    pgFilesOf fs il (some pg) = p :: pgFilesOf fs il (some pg') := by
  unfold pgNext at h
  cases hc : pg.current with
  | cons q qs =>
    rw [hc] at h
    simp only [Except.ok.injEq, Option.some.injEq, Prod.mk.injEq] at h
    obtain ⟨hq, hpg'⟩ := h
    show pg.current ++ (pg.roots.map (rootFiles fs il)).flatten
      = p :: pgFilesOf fs il (some pg')
    rw [hc, ← hpg', ← hq]
    rfl
  | nil =>
    rw [hc] at h
    show pg.current ++ (pg.roots.map (rootFiles fs il)).flatten
      = p :: pgFilesOf fs il (some pg')
    rw [hc, List.nil_append]
    cases hsk : pgSeek fs il pg.roots with
    | mk evs res =>
      rw [hsk] at h
      cases res with
      | error e => simp at h
      | ok o =>
        cases o with
        | none => simp at h
        | some t =>
          obtain ⟨q, qs, rs⟩ := t
          simp only [Except.ok.injEq, Option.some.injEq, Prod.mk.injEq] at h
          obtain ⟨hq, hpg'⟩ := h
          have := pgSeek_some fs il pg.roots q qs rs (by rw [hsk])
          rw [this, ← hpg', ← hq]
          rfl

/-- The one-step shape of a successful guarded `path_gen.next()`: either
nothing was activated (and no pending file existed), or exactly the first
pending file became a new source with the next serial number. -/
lemma activateOnce_ok {fs : FS} {il : Bool} {s s' : RState}
    (h : (activateOnce fs il s).2 = Except.ok s') :
    (s'.active = s.active ∧ s'.nextId = s.nextId ∧
      pgFilesOf fs il s.pg = [] ∧ pgFilesOf fs il s'.pg = [])
    ∨ (∃ p, s'.active = s.active ++ [⟨s.nextId, p, fileRecs fs p⟩] ∧
        s'.nextId = s.nextId + 1 ∧
        pgFilesOf fs il s.pg = p :: pgFilesOf fs il s'.pg) := by
  cases hpg : s.pg with
  | none =>
    simp only [activateOnce, hpg] at h
    injection h with h2
    subst h2
    left
    exact ⟨rfl, rfl, rfl, by rw [hpg]; rfl⟩
  | some pg =>
    simp only [activateOnce, hpg] at h
    cases hpn : pgNext fs il pg with
    | mk evs res =>
      rw [hpn] at h
      cases res with
      | error e => simp at h
      | ok o =>
        cases o with
        | none =>
          simp only [Except.ok.injEq] at h
          subst h
          left
          refine ⟨rfl, rfl, ?_, rfl⟩
          exact pgNext_none (by rw [hpn])
        | some t =>
          obtain ⟨p, pg'⟩ := t
          simp only [Except.ok.injEq] at h
          subst h
          right
          refine ⟨p, rfl, rfl, ?_⟩
          exact pgNext_some (by rw [hpn])

end Hdfs

namespace Hdfs

/-! ## Preservation lemmas for one activation step -/

lemma activateOnce_invBase {fs : FS} {il : Bool} {s s' : RState}
    (h : (activateOnce fs il s).2 = Except.ok s') (hi : InvBase s) : InvBase s' := by
  rcases activateOnce_ok h with ⟨ha, hn, -, -⟩ | ⟨p, ha, hn, -⟩
  · exact ⟨by rw [ha, hn]; exact hi.1, by rw [ha]; exact hi.2⟩
  · constructor
    · intro t ht
      rw [ha] at ht
      rw [hn]
      rcases List.mem_append.mp ht with h1 | h2
      · exact Nat.lt_succ_of_lt (hi.1 t h1)
      · have : t = ⟨s.nextId, p, fileRecs fs p⟩ := by simpa using h2
        rw [this]
        exact Nat.lt_succ_self _
    · rw [ha, List.map_append]
      refine hi.2.append (List.nodup_singleton _) ?_
      intro x hx hx2
      simp only [List.map_cons, List.map_nil, List.mem_singleton] at hx2
      rcases List.mem_map.mp hx with ⟨t, ht, hxt⟩
      have := hi.1 t ht
      omega

lemma activateOnce_he {fs : FS} {il : Bool} {s s' : RState}
    (h : (activateOnce fs il s).2 = Except.ok s') : HE fs il s' := by
  rcases activateOnce_ok h with ⟨-, -, -, hp⟩ | ⟨p, ha, -, -⟩
  · intro _; exact hp
  · intro hemp
    rw [ha] at hemp
    simp at hemp

lemma activateOnce_ms {fs : FS} {il : Bool} {s s' : RState}
    (h : (activateOnce fs il s).2 = Except.ok s') :
    activeMS s' + pendMS fs il s' = activeMS s + pendMS fs il s := by
  rcases activateOnce_ok h with ⟨ha, -, hp0, hp1⟩ | ⟨p, ha, -, hp⟩
  · unfold activeMS pendMS
    simp only [ha, hp0, hp1]
  · unfold activeMS pendMS
    rw [ha, hp, List.map_append, List.sum_append, List.map_cons, List.sum_cons]
    simp only [List.map_cons, List.map_nil, List.sum_cons, List.sum_nil, add_zero]
    rw [add_assoc]

lemma activateOnce_counts {fs : FS} {il : Bool} {s s' : RState}
    (h : (activateOnce fs il s).2 = Except.ok s') :
    s'.active.length + pendLen fs il s' = s.active.length + pendLen fs il s
    ∧ s'.active.length ≤ s.active.length + 1
    ∧ (0 < pendLen fs il s →
        s'.active.length = s.active.length + 1
        ∧ pendLen fs il s' = pendLen fs il s - 1)
    ∧ (pendLen fs il s = 0 →
        s'.active.length = s.active.length ∧ pendLen fs il s' = 0) := by
  rcases activateOnce_ok h with ⟨ha, -, hp0, hp1⟩ | ⟨p, ha, -, hp⟩
  · have h1 : pendLen fs il s = 0 := by unfold pendLen; rw [hp0]; rfl
    have h2 : pendLen fs il s' = 0 := by unfold pendLen; rw [hp1]; rfl
    have h3 : s'.active.length = s.active.length := by rw [ha]
    exact ⟨by omega, by omega, by omega, by omega⟩
  · have h3 : s'.active.length = s.active.length + 1 := by rw [ha]; simp
    have h4 : pendLen fs il s = pendLen fs il s' + 1 := by unfold pendLen; rw [hp]; simp
    exact ⟨by omega, by omega, fun h0 => ⟨by omega, by omega⟩, fun h0 => by omega⟩

lemma activateOnce_remAll {fs : FS} {il : Bool} {s s' : RState}
    (h : (activateOnce fs il s).2 = Except.ok s') (hi : InvBase s) :
    ∀ id, remAll fs il s' id = remAll fs il s id := by
  intro id
  rcases activateOnce_ok h with ⟨ha, hn, hp0, hp1⟩ | ⟨p, ha, hn, hp⟩
  · unfold remAll
    rw [ha, hn, hp0, hp1]
  · unfold remAll
    rw [ha, hn, hp, List.filter_append]
    rcases Nat.lt_trichotomy id s.nextId with hlt | heq | hgt
    · have hne : (s.nextId == id) = false := by
        simp only [beq_eq_false_iff_ne]
        omega
      have hflt : List.filter (fun (t : Source) => t.id == id)
          [(⟨s.nextId, p, fileRecs fs p⟩ : Source)] = [] := by
        simp [List.filter_cons, hne]
      rw [hflt, List.append_nil, if_pos hlt, if_pos (Nat.lt_succ_of_lt hlt)]
    · have hflt0 : List.filter (fun (t : Source) => t.id == id) s.active = [] := by
        refine List.filter_eq_nil_iff.mpr ?_
        intro t ht
        have := hi.1 t ht
        simp only [beq_iff_eq]
        omega
      have hflt1 : List.filter (fun (t : Source) => t.id == id)
          [(⟨s.nextId, p, fileRecs fs p⟩ : Source)] = [⟨s.nextId, p, fileRecs fs p⟩] := by
        simp [List.filter_cons, heq]
      rw [hflt0, hflt1, List.nil_append,
        if_pos (by omega : id < s.nextId + 1), if_neg (by omega : ¬ id < s.nextId)]
      have hidx : id - s.nextId = 0 := by omega
      rw [hidx]
      simp
    · have hne : (s.nextId == id) = false := by
        simp only [beq_eq_false_iff_ne]
        omega
      have hflt : List.filter (fun (t : Source) => t.id == id)
          [(⟨s.nextId, p, fileRecs fs p⟩ : Source)] = [] := by
        simp [List.filter_cons, hne]
      rw [hflt, List.append_nil, if_neg (by omega : ¬ id < s.nextId + 1),
        if_neg (by omega : ¬ id < s.nextId)]
      have hidx : id - s.nextId = (id - (s.nextId + 1)) + 1 := by omega
      rw [List.map_cons, hidx, List.getD_cons_succ]

end Hdfs

namespace Hdfs

/-! ## The initial fill-to-capacity phase -/

lemma invBase_init (paths : List HPath) : InvBase (initState paths) := by
  constructor
  · intro t ht
    simp [initState] at ht
  · simp [initState]

lemma initActivate_props (fs : FS) (il : Bool) :
    ∀ (n : Nat) (s s' : RState),
      (initActivate fs il n s).2.2 = Except.ok s' → InvBase s →
      InvBase s'
      ∧ (∀ id, remAll fs il s' id = remAll fs il s id)
      ∧ activeMS s' + pendMS fs il s' = activeMS s + pendMS fs il s
      ∧ s'.active.length = s.active.length + min n (pendLen fs il s)
      ∧ pendLen fs il s' = pendLen fs il s - min n (pendLen fs il s) := by
  intro n
  induction n with
  | zero =>
    intro s s' h hi
    simp only [initActivate] at h
    injection h with h2
    subst h2
    exact ⟨hi, fun _ => rfl, rfl, by simp, by simp⟩
  | succ n ih =>
    intro s s' h hi
    cases hao : activateOnce fs il s with
    | mk evs res =>
      simp only [initActivate, hao] at h
      cases res with
      | error e => simp at h
      | ok s1 =>
        simp only [] at h
        have hstep : (activateOnce fs il s).2 = Except.ok s1 := by rw [hao]
        have hi1 := activateOnce_invBase hstep hi
        obtain ⟨hI, hR, hM, hL, hP⟩ := ih s1 s' h hi1
        have hc := activateOnce_counts hstep
        refine ⟨hI, ?_, ?_, ?_, ?_⟩
        · intro id
          rw [hR id, activateOnce_remAll hstep hi id]
        · rw [hM, activateOnce_ms hstep]
        · rcases Nat.eq_zero_or_pos (pendLen fs il s) with h0 | h0
          · obtain ⟨he1, he2⟩ := hc.2.2.2 h0
            omega
          · obtain ⟨he1, he2⟩ := hc.2.2.1 h0
            omega
        · rcases Nat.eq_zero_or_pos (pendLen fs il s) with h0 | h0
          · obtain ⟨he1, he2⟩ := hc.2.2.2 h0
            omega
          · obtain ⟨he1, he2⟩ := hc.2.2.1 h0
            omega

lemma initActivate_snaps (fs : FS) (il : Bool) :
    ∀ (n : Nat) (s : RState) (c : Nat),
      c ∈ (initActivate fs il n s).2.1 → c ≤ s.active.length + n := by
  intro n
  induction n with
  | zero => intro s c hc; simp [initActivate] at hc
  | succ n ih =>
    intro s c hc
    cases hao : activateOnce fs il s with
    | mk evs res =>
      simp only [initActivate, hao] at hc
      cases res with
      | error e => simp at hc
      | ok s1 =>
        simp only [List.mem_cons] at hc
        have hstep : (activateOnce fs il s).2 = Except.ok s1 := by rw [hao]
        have hle := (activateOnce_counts hstep).2.1
        rcases hc with hc | hc
        · omega
        · have := ih s1 c hc
          omega

lemma initActivate_he (fs : FS) (il : Bool) {np : Nat} {paths : List HPath} {s1 : RState}
    (hnp : 1 ≤ np)
    (h : (initActivate fs il np (initState paths)).2.2 = Except.ok s1) :
    HE fs il s1 := by
  obtain ⟨-, -, -, hL, hP⟩ :=
    initActivate_props fs il np (initState paths) s1 h (invBase_init paths)
  intro hemp
  have h0 : s1.active.length = 0 := by rw [hemp]; rfl
  have hinit : (initState paths).active.length = 0 := rfl
  have hz : pendLen fs il s1 = 0 := by omega
  unfold pendLen at hz
  exact List.length_eq_zero.mp hz

end Hdfs

namespace Hdfs

/-! ## The read loop: conservation of the record multiset -/

lemma runLoop_ms (fs : FS) (il : Bool) :
    ∀ (sched : List Nat) (s : RState), HE fs il s →
      (runLoop fs il sched s).2.2.2 = ROutcome.ok →
      (((runLoop fs il sched s).2.1.map (fun y => y.2.2) : List Rec) : Multiset Rec)
        = activeMS s + pendMS fs il s := by
  intro sched
  induction sched with
  | nil =>
    intro s hhe hok
    by_cases hemp : s.active = []
    · have h0 : activeMS s = 0 := by unfold activeMS; rw [hemp]; rfl
      have h1 : pendMS fs il s = 0 := by unfold pendMS; rw [hhe hemp]; rfl
      simp [runLoop, hemp, h0, h1]
    · exfalso
      have hfe : s.active.isEmpty = false := by
        cases hact : s.active with
        | nil => exact absurd hact hemp
        | cons a tl => rfl
      simp [runLoop, hfe] at hok
  | cons i sched' ih =>
    intro s hhe hok
    cases hact : s.active with
    | nil =>
      have h0 : activeMS s = 0 := by unfold activeMS; rw [hact]; rfl
      have h1 : pendMS fs il s = 0 := by unfold pendMS; rw [hhe hact]; rfl
      simp [runLoop, hact, h0, h1]
    | cons a tl =>
      have hAMS : activeMS s
          = ((a :: tl).map (fun t => ((t.rem : List Rec) : Multiset Rec))).sum := by
        unfold activeMS
        rw [hact]
      simp only [runLoop, hact] at hok ⊢
      have hlen : 0 < (a :: tl).length := by simp
      set k := i % (a :: tl).length with hkeq
      have hk : k < (a :: tl).length := Nat.mod_lt i hlen
      set src := (a :: tl).getD k dfltSrc with hsrceq
      cases hrem : src.rem with
      | cons r rs =>
        simp only [hrem] at hok ⊢
        have hhe' : HE fs il
            (⟨(a :: tl).set k ⟨src.id, src.path, rs⟩, s.pg, s.nextId⟩ : RState) := by
          intro hemp2
          have := congrArg List.length hemp2
          simp [List.length_set] at this
        have hih := ih _ hhe' hok
        have hsum := sum_map_set (fun t => ((t.rem : List Rec) : Multiset Rec)) dfltSrc
          (a :: tl) k ⟨src.id, src.path, rs⟩ hk
        simp only [] at hsum
        rw [hrem] at hsum
        have hAS : r ::ₘ activeMS
            (⟨(a :: tl).set k ⟨src.id, src.path, rs⟩, s.pg, s.nextId⟩ : RState)
            = activeMS s := by
          have h1 : activeMS
              (⟨(a :: tl).set k ⟨src.id, src.path, rs⟩, s.pg, s.nextId⟩ : RState)
              = (((a :: tl).set k ⟨src.id, src.path, rs⟩).map
                  (fun t => ((t.rem : List Rec) : Multiset Rec))).sum := rfl
          rw [h1, hAMS]
          rw [← Multiset.cons_coe, Multiset.add_cons] at hsum
          refine add_right_cancel (b := (rs : Multiset Rec)) ?_
          rw [Multiset.cons_add]
          exact hsum
        have hgoal : ((r :: List.map (fun y => y.2.2)
            (runLoop fs il sched'
              ⟨(a :: tl).set k ⟨src.id, src.path, rs⟩, s.pg, s.nextId⟩).2.1
              : List Rec) : Multiset Rec) = activeMS s + pendMS fs il s := by
          rw [← Multiset.cons_coe, hih, ← Multiset.cons_add, hAS]
          rfl
        exact hgoal
      | nil =>
        simp only [hrem] at hok ⊢
        cases hao : activateOnce fs il ⟨(a :: tl).eraseIdx k, s.pg, s.nextId⟩ with
        | mk evs res =>
          simp only [hao] at hok ⊢
          cases res with
          | error e => simp at hok
          | ok s2 =>
            simp only [] at hok ⊢
            have hstep : (activateOnce fs il
                (⟨(a :: tl).eraseIdx k, s.pg, s.nextId⟩ : RState)).2 = Except.ok s2 := by
              rw [hao]
            have hhe2 : HE fs il s2 := activateOnce_he hstep
            have hih := ih s2 hhe2 hok
            rw [hih, activateOnce_ms hstep]
            have hsum := sum_map_eraseIdx (fun t => ((t.rem : List Rec) : Multiset Rec))
              dfltSrc (a :: tl) k hk
            simp only [] at hsum
            rw [hrem, Multiset.coe_nil, add_zero] at hsum
            have h1 : activeMS (⟨(a :: tl).eraseIdx k, s.pg, s.nextId⟩ : RState)
                = (((a :: tl).eraseIdx k).map
                    (fun t => ((t.rem : List Rec) : Multiset Rec))).sum := rfl
            have h2 : pendMS fs il (⟨(a :: tl).eraseIdx k, s.pg, s.nextId⟩ : RState)
                = pendMS fs il s := rfl
            rw [h1, h2, hsum, hAMS]

end Hdfs

namespace Hdfs

/-! ## The read loop: per-source delivery in order -/

lemma runLoop_filter (fs : FS) (il : Bool) :
    ∀ (sched : List Nat) (s : RState), InvBase s → HE fs il s →
      (runLoop fs il sched s).2.2.2 = ROutcome.ok →
      ∀ id, ((runLoop fs il sched s).2.1.filter (fun y => y.1 == id)).map (fun y => y.2.2)
        = remAll fs il s id := by
  intro sched
  induction sched with
  | nil =>
    intro s hi hhe hok id
    by_cases hemp : s.active = []
    · have hra : remAll fs il s id = [] := by
        unfold remAll
        rw [hemp, hhe hemp]
        simp
      simp [runLoop, hemp, hra]
    · exfalso
      have hfe : s.active.isEmpty = false := by
        cases hact2 : s.active with
        | nil => exact absurd hact2 hemp
        | cons a tl => rfl
      simp [runLoop, hfe] at hok
  | cons i sched' ih =>
    intro s hi hhe hok id
    cases hact : s.active with
    | nil =>
      have hra : remAll fs il s id = [] := by
        unfold remAll
        rw [hact, hhe hact]
        simp
      simp [runLoop, hact, hra]
    | cons a tl =>
      obtain ⟨hi1, hi2⟩ := hi
      rw [hact] at hi1 hi2
      have hs_remAll : remAll fs il s id
          = (((a :: tl).filter (fun t => t.id == id)).map Source.rem).flatten
            ++ (if id < s.nextId then []
                else ((pgFilesOf fs il s.pg).map (fileRecs fs)).getD (id - s.nextId) []) := by
        unfold remAll
        rw [hact]
      simp only [runLoop, hact] at hok ⊢
      have hlen : 0 < (a :: tl).length := by simp
      set k := i % (a :: tl).length with hkeq
      have hk : k < (a :: tl).length := Nat.mod_lt i hlen
      set src := (a :: tl).getD k dfltSrc with hsrceq
      have hsrcmem : src ∈ (a :: tl) := getD_mem dfltSrc (a :: tl) k hk
      have hsrclt : src.id < s.nextId := hi1 src hsrcmem
      cases hrem : src.rem with
      | cons r rs =>
        simp only [hrem] at hok ⊢
        have hiS : InvBase
            (⟨(a :: tl).set k ⟨src.id, src.path, rs⟩, s.pg, s.nextId⟩ : RState) := by
          constructor
          · intro t ht
            rcases List.mem_or_eq_of_mem_set ht with h1 | h2
            · exact hi1 t h1
            · rw [h2]
              exact hsrclt
          · show (((a :: tl).set k ⟨src.id, src.path, rs⟩).map Source.id).Nodup
            rw [map_id_set_eq (a :: tl) k (⟨src.id, src.path, rs⟩ : Source) hk rfl]
            exact hi2
        have hheS : HE fs il
            (⟨(a :: tl).set k ⟨src.id, src.path, rs⟩, s.pg, s.nextId⟩ : RState) := by
          intro hemp2
          have := congrArg List.length hemp2
          simp [List.length_set] at this
        have hih := ih _ hiS hheS hok id
        have hSp_remAll : remAll fs il
            (⟨(a :: tl).set k ⟨src.id, src.path, rs⟩, s.pg, s.nextId⟩ : RState) id
            = ((((a :: tl).set k ⟨src.id, src.path, rs⟩).filter
                (fun t => t.id == id)).map Source.rem).flatten
              ++ (if id < s.nextId then []
                  else ((pgFilesOf fs il s.pg).map (fileRecs fs)).getD (id - s.nextId) []) :=
          rfl
        by_cases hid : src.id = id
        · have hbeq : (src.id == id) = true := by simp [hid]
          have hfl : (a :: tl).filter (fun t => t.id == id) = [src] := by
            rw [← hid]
            exact filter_id_getD (a :: tl) k hk hi2
          have hfl' : ((a :: tl).set k ⟨src.id, src.path, rs⟩).filter (fun t => t.id == id)
              = [⟨src.id, src.path, rs⟩] := by
            rw [← hid]
            exact filter_set_id_eq (a :: tl) k (⟨src.id, src.path, rs⟩ : Source) hk hi2 rfl
          simp only [List.filter_cons, hbeq, eq_self_iff_true, if_true]
          rw [List.map_cons, hih, hSp_remAll, hs_remAll, hfl, hfl']
          have hlt : id < s.nextId := hid ▸ hsrclt
          rw [if_pos hlt]
          simp [hrem]
        · have hbeq : (src.id == id) = false := by simp [hid]
          have hfl' : ((a :: tl).set k ⟨src.id, src.path, rs⟩).filter (fun t => t.id == id)
              = (a :: tl).filter (fun t => t.id == id) := by
            refine filter_set_id_ne (a :: tl) k (⟨src.id, src.path, rs⟩ : Source) id hk rfl ?_
            intro he
            exact hid he.symm
          simp only [List.filter_cons, hbeq, Bool.false_eq_true, if_false]
          rw [hih, hSp_remAll, hs_remAll, hfl']
      | nil =>
        simp only [hrem] at hok ⊢
        cases hao : activateOnce fs il ⟨(a :: tl).eraseIdx k, s.pg, s.nextId⟩ with
        | mk evs res =>
          simp only [hao] at hok ⊢
          cases res with
          | error e => simp at hok
          | ok s2 =>
            simp only [] at hok ⊢
            have hstep : (activateOnce fs il
                (⟨(a :: tl).eraseIdx k, s.pg, s.nextId⟩ : RState)).2 = Except.ok s2 := by
              rw [hao]
            have hiS1 : InvBase (⟨(a :: tl).eraseIdx k, s.pg, s.nextId⟩ : RState) := by
              constructor
              · intro t ht
                exact hi1 t ((List.eraseIdx_sublist (a :: tl) k).mem ht)
              · show (((a :: tl).eraseIdx k).map Source.id).Nodup
                rw [map_id_eraseIdx]
                exact hi2.sublist (List.eraseIdx_sublist _ k)
            have hiS2 := activateOnce_invBase hstep hiS1
            have hih := ih s2 hiS2 (activateOnce_he hstep) hok id
            rw [hih, activateOnce_remAll hstep hiS1 id]
            have hS1_remAll : remAll fs il (⟨(a :: tl).eraseIdx k, s.pg, s.nextId⟩ : RState) id
                = ((((a :: tl).eraseIdx k).filter (fun t => t.id == id)).map
                    Source.rem).flatten
                  ++ (if id < s.nextId then []
                      else ((pgFilesOf fs il s.pg).map (fileRecs fs)).getD (id - s.nextId) []) :=
              rfl
            rw [hS1_remAll, hs_remAll]
            by_cases hid : src.id = id
            · have hfeq : ((a :: tl).eraseIdx k).filter (fun t => t.id == id) = [] := by
                rw [← hid]
                exact filter_eraseIdx_id_eq (a :: tl) k hk hi2
              have hfl : (a :: tl).filter (fun t => t.id == id) = [src] := by
                rw [← hid]
                exact filter_id_getD (a :: tl) k hk hi2
              rw [hfeq, hfl]
              simp [hrem]
            · have hfeq : ((a :: tl).eraseIdx k).filter (fun t => t.id == id)
                  = (a :: tl).filter (fun t => t.id == id) :=
                filter_eraseIdx_id_ne (a :: tl) k id hk hid
              rw [hfeq]

end Hdfs

namespace Hdfs

/-! ## The read loop: the concurrency bound at every loop entry -/

lemma snap_bound {fs : FS} {il : Bool} {np : Nat} {s : RState}
    (h1 : s.active.length ≤ np)
    (h2 : 0 < pendLen fs il s → s.active.length = np) :
    (snap fs il s).1 ≤ np ∧ (0 < (snap fs il s).2 → (snap fs il s).1 = min np ((snap fs il s).1 + (snap fs il s).2)) := by
  unfold snap
  constructor
  · exact h1
  · intro hp
    have hnp := h2 hp
    omega

lemma runLoop_snaps (fs : FS) (il : Bool) (np : Nat) :
    ∀ (sched : List Nat) (s : RState),
      s.active.length ≤ np →
      (0 < pendLen fs il s → s.active.length = np) →
      ∀ sn ∈ (runLoop fs il sched s).2.2.1,
        sn.1 ≤ np ∧ (0 < sn.2 → sn.1 = min np (sn.1 + sn.2)) := by
  intro sched
  induction sched with
  | nil =>
    intro s h1 h2 sn hsn
    have hsn' : sn = snap fs il s := by simpa [runLoop] using hsn
    subst hsn'
    exact snap_bound h1 h2
  | cons i sched' ih =>
    intro s h1 h2 sn hsn
    cases hact : s.active with
    | nil =>
      have hsn' : sn = snap fs il s := by simpa [runLoop, hact] using hsn
      subst hsn'
      exact snap_bound h1 h2
    | cons a tl =>
      simp only [runLoop, hact] at hsn
      set k := i % (a :: tl).length with hkeq
      have hk : k < (a :: tl).length := Nat.mod_lt i (by simp)
      set src := (a :: tl).getD k dfltSrc with hsrceq
      cases hrem : src.rem with
      | cons r rs =>
        simp only [hrem] at hsn
        rcases List.mem_cons.mp hsn with hsn1 | hsn2
        · subst hsn1
          exact snap_bound h1 h2
        · have hlen' : (⟨(a :: tl).set k ⟨src.id, src.path, rs⟩, s.pg, s.nextId⟩
              : RState).active.length = s.active.length := by
            simp [List.length_set, hact]
          have hp' : pendLen fs il
              (⟨(a :: tl).set k ⟨src.id, src.path, rs⟩, s.pg, s.nextId⟩ : RState)
              = pendLen fs il s := rfl
          refine ih _ ?_ ?_ sn hsn2
          · rw [hlen']
            exact h1
          · intro hp
            rw [hlen']
            exact h2 (hp' ▸ hp)
      | nil =>
        simp only [hrem] at hsn
        cases hao : activateOnce fs il ⟨(a :: tl).eraseIdx k, s.pg, s.nextId⟩ with
        | mk evs res =>
          simp only [hao] at hsn
          cases res with
          | error e =>
            have hsn' : sn = snap fs il s := by simpa using hsn
            subst hsn'
            exact snap_bound h1 h2
          | ok s2 =>
            simp only [List.mem_cons] at hsn
            rcases hsn with hsn1 | hsn2
            · subst hsn1
              exact snap_bound h1 h2
            · have hstep : (activateOnce fs il
                  (⟨(a :: tl).eraseIdx k, s.pg, s.nextId⟩ : RState)).2 = Except.ok s2 := by
                rw [hao]
              have hc := activateOnce_counts hstep
              have hlen1 : (⟨(a :: tl).eraseIdx k, s.pg, s.nextId⟩
                  : RState).active.length = (a :: tl).length - 1 := by
                simpa using length_eraseIdx' (a :: tl) k hk
              have hp1 : pendLen fs il (⟨(a :: tl).eraseIdx k, s.pg, s.nextId⟩ : RState)
                  = pendLen fs il s := rfl
              have hsl : s.active.length = (a :: tl).length := by rw [hact]
              refine ih s2 ?_ ?_ sn hsn2
              · omega
              · intro hp2
                rcases Nat.eq_zero_or_pos (pendLen fs il
                    (⟨(a :: tl).eraseIdx k, s.pg, s.nextId⟩ : RState)) with h0 | h0
                · obtain ⟨-, he2⟩ := hc.2.2.2 h0
                  omega
                · have hnp := h2 (hp1 ▸ h0)
                  obtain ⟨he1, he2⟩ := hc.2.2.1 h0
                  have hlc : 0 < (a :: tl).length := by simp
                  omega

end Hdfs

namespace Hdfs

/-! ## Noninterference of dump-subprocess exit codes -/

section NI

variable {fs1 fs2 : FS}

lemma ni_ls (hls : fs1.listing = fs2.listing) (r : HPath) :
    lsModel fs1 r = lsModel fs2 r := by
  unfold lsModel
  rw [hls]

lemma ni_rootFiles (hls : fs1.listing = fs2.listing) (il : Bool) (r : HPath) :
    rootFiles fs1 il r = rootFiles fs2 il r := by
  unfold rootFiles
  rw [ni_ls hls r]

lemma ni_pgSeek (hls : fs1.listing = fs2.listing) (il : Bool) :
    ∀ rs : List HPath, pgSeek fs1 il rs = pgSeek fs2 il rs := by
  intro rs
  induction rs with
  | nil => rfl
  | cons r rs ih =>
    simp only [pgSeek, ni_ls hls r, ih]

lemma ni_pgNext (hls : fs1.listing = fs2.listing) (il : Bool) (pg : PGState) :
    pgNext fs1 il pg = pgNext fs2 il pg := by
  unfold pgNext
  rw [ni_pgSeek hls il pg.roots]

lemma ni_pgFiles (hls : fs1.listing = fs2.listing) (il : Bool) :
    ∀ o : Option PGState, pgFilesOf fs1 il o = pgFilesOf fs2 il o := by
  intro o
  cases o with
  | none => rfl
  | some pg =>
    show pg.current ++ (pg.roots.map (rootFiles fs1 il)).flatten
      = pg.current ++ (pg.roots.map (rootFiles fs2 il)).flatten
    have : pg.roots.map (rootFiles fs1 il) = pg.roots.map (rootFiles fs2 il) :=
      List.map_congr_left (fun r _ => ni_rootFiles hls il r)
    rw [this]

lemma ni_snap (hls : fs1.listing = fs2.listing) (il : Bool) (s : RState) :
    snap fs1 il s = snap fs2 il s := by
  unfold snap
  rw [ni_pgFiles hls il s.pg]

lemma ni_activateOnce (hls : fs1.listing = fs2.listing)
    (hrecs : ∀ p, fileRecs fs1 p = fileRecs fs2 p) (il : Bool) (s : RState) :
    activateOnce fs1 il s = activateOnce fs2 il s := by
  cases hpg : s.pg with
  | none => simp only [activateOnce, hpg]
  | some pg =>
    simp only [activateOnce, hpg, ni_pgNext hls il pg]
    cases hpn : pgNext fs2 il pg with
    | mk evs res =>
      cases res with
      | error e => rfl
      | ok o =>
        cases o with
        | none => rfl
        | some t =>
          obtain ⟨p, pg'⟩ := t
          simp only [hrecs p]

lemma ni_initActivate (hls : fs1.listing = fs2.listing)
    (hrecs : ∀ p, fileRecs fs1 p = fileRecs fs2 p) (il : Bool) :
    ∀ (n : Nat) (s : RState), initActivate fs1 il n s = initActivate fs2 il n s := by
  intro n
  induction n with
  | zero => intro s; rfl
  | succ n ih =>
    intro s
    simp only [initActivate, ni_activateOnce hls hrecs il s]
    cases hao : activateOnce fs2 il s with
    | mk evs res =>
      cases res with
      | error e => rfl
      | ok s1 => simp only [ih s1]

lemma ni_runLoop (hls : fs1.listing = fs2.listing)
    (hrecs : ∀ p, fileRecs fs1 p = fileRecs fs2 p) (il : Bool) :
    ∀ (sched : List Nat) (s : RState),
      (runLoop fs1 il sched s).2 = (runLoop fs2 il sched s).2 := by
  intro sched
  induction sched with
  | nil =>
    intro s
    simp only [runLoop, ni_snap hls il s]
  | cons i sched' ih =>
    intro s
    cases hact : s.active with
    | nil => simp only [runLoop, hact, ni_snap hls il s]
    | cons a tl =>
      simp only [runLoop, hact]
      set k := i % (a :: tl).length with hkeq
      set src := (a :: tl).getD k dfltSrc with hsrceq
      cases hrem : src.rem with
      | cons r rs =>
        simp only [hrem]
        have := ih (⟨(a :: tl).set k ⟨src.id, src.path, rs⟩, s.pg, s.nextId⟩ : RState)
        simp only [Prod.ext_iff] at this
        simp only [ni_snap hls il s, this.1, this.2.1, this.2.2]
      | nil =>
        simp only [hrem]
        rw [ni_activateOnce hls hrecs il ⟨(a :: tl).eraseIdx k, s.pg, s.nextId⟩]
        cases hao : activateOnce fs2 il ⟨(a :: tl).eraseIdx k, s.pg, s.nextId⟩ with
        | mk evs res =>
          cases res with
          | error e => simp only [ni_snap hls il s]
          | ok s2 =>
            have := ih s2
            simp only [Prod.ext_iff] at this
            simp only [ni_snap hls il s, this.1, this.2.1, this.2.2]

lemma ni_readtbRun (hls : fs1.listing = fs2.listing)
    (hrecs : ∀ p, fileRecs fs1 p = fileRecs fs2 p) (il : Bool)
    (paths : List HPath) (np : Nat) (sched : List Nat) :
    (readtbRun fs1 paths il np sched).yields = (readtbRun fs2 paths il np sched).yields
    ∧ (readtbRun fs1 paths il np sched).outcome = (readtbRun fs2 paths il np sched).outcome
    ∧ (readtbRun fs1 paths il np sched).snaps = (readtbRun fs2 paths il np sched).snaps
    ∧ (readtbRun fs1 paths il np sched).initSnaps
        = (readtbRun fs2 paths il np sched).initSnaps := by
  unfold readtbRun
  rw [ni_initActivate hls hrecs il np (initState paths)]
  cases hini : initActivate fs2 il np (initState paths) with
  | mk evs rest2 =>
    cases rest2 with
    | mk cs res =>
      cases res with
      | error e => exact ⟨rfl, rfl, rfl, rfl⟩
      | ok s1 =>
        have := ni_runLoop hls hrecs il sched s1
        simp only [Prod.ext_iff] at this
        exact ⟨this.1, this.2.2, this.2.1, rfl⟩

end NI

end Hdfs

namespace Hdfs

/-! ## Writer lemmas, filtering lemma, and small helpers -/

lemma writetbGo_alive (ld : Loader) :
    ∀ (kvs : List KV) (i : Nat), (∀ j, j < kvs.length → pollExited ld (i + j) = false) →
      writetbGo ld i kvs
        = (kvs, [WEvent.flushEv, WEvent.closeEv, WEvent.waitEv], WResult.ret ld.exitCode) := by
  intro kvs
  induction kvs with
  | nil => intro i _; rfl
  | cons kv rest ih =>
    intro i h
    have h0 : pollExited ld i = false := by simpa using h 0 (by simp)
    have hrec := ih (i + 1) (fun j hj => by
      have := h (j + 1) (by simpa using Nat.succ_lt_succ hj)
      rw [show i + 1 + j = i + (j + 1) by omega]
      exact this)
    simp only [writetbGo, h0, Bool.false_eq_true, if_false, hrec]

lemma writetbGo_dies (ld : Loader) :
    ∀ (kvs : List KV) (i d : Nat), ld.diesAt = some d → i ≤ d → d - i < kvs.length →
      writetbGo ld i kvs
        = (kvs.take (d - i), [WEvent.closeEv],
           WResult.childQuit ld.stdoutCap ld.stderrCap) := by
  intro kvs
  induction kvs with
  | nil => intro i d _ _ hlt; simp at hlt
  | cons kv rest ih =>
    intro i d hd hle hlt
    by_cases hie : i = d
    · have hp : pollExited ld i = true := by
        simp [pollExited, hd, hie]
      have hz : d - i = 0 := by omega
      simp only [writetbGo, hp, if_true, hz, List.take_zero]
    · have hlt2 : i < d := lt_of_le_of_ne hle hie
      have hp : pollExited ld i = false := by
        simp only [pollExited, hd, decide_eq_false_iff_not]
        omega
      have hrec := ih (i + 1) d hd (by omega) (by
        simp only [List.length_cons] at hlt
        omega)
      simp only [writetbGo, hp, Bool.false_eq_true, if_false, hrec]
      have hs : d - i = (d - (i + 1)) + 1 := by omega
      rw [hs]
      rfl

lemma filterKeep_eq :
    ∀ (all : List HPath), (∀ p ∈ all, basename p ≠ []) →
      filterKeep all = some (all.filter (fun p => (basename p).head? != some '_')) := by
  intro all
  induction all with
  | nil => intro _; rfl
  | cons p ps ih =>
    intro h
    have hp := h p (by simp)
    cases hbp : basename p with
    | nil => exact absurd hbp hp
    | cons c cs =>
      have hk : keepFile p = some (c != '_') := by
        unfold keepFile
        rw [hbp]
      have hpred : ((basename p).head? != some '_') = (c != '_') := by
        rw [hbp]
        rfl
      simp only [filterKeep, hk, ih (fun q hq => h q (by simp [hq]))]
      simp only [List.filter_cons, hpred]

lemma card_sum_map (fs : FS) :
    ∀ (l : List HPath),
      Multiset.card ((l.map (fun p => ((fileRecs fs p : List Rec) : Multiset Rec))).sum)
        = (l.map (fun p => (fileRecs fs p).length)).sum := by
  intro l
  induction l with
  | nil => simp
  | cons p ps ih => simp [ih]

lemma readtbRun_first_root_missing (fs : FS) {r : HPath} (rest : List HPath)
    (il : Bool) (m : Nat) (sched : List Nat) (hbad : lsModel fs r = none) :
    readtbRun fs (r :: rest) il (m + 1) sched
      = ⟨[Event.lsCall r], [], [], [], ROutcome.err (Err.noSuchFile r)⟩ := by
  have hseek : pgSeek fs il (r :: rest)
      = ([Event.lsCall r], Except.error (Err.noSuchFile r)) := by
    simp only [pgSeek, hbad]
  have hnext : pgNext fs il ⟨[], r :: rest⟩
      = ([Event.lsCall r], Except.error (Err.noSuchFile r)) := by
    simp only [pgNext, hseek]
  have hao : activateOnce fs il (initState (r :: rest))
      = ([Event.lsCall r], Except.error (Err.noSuchFile r)) := by
    simp only [activateOnce, initState, hnext]
  have hini : initActivate fs il (m + 1) (initState (r :: rest))
      = ([Event.lsCall r], [], Except.error (Err.noSuchFile r)) := by
    simp only [initActivate, hao]
  unfold readtbRun
  rw [hini]

end Hdfs

namespace Hdfs

/-! ## Claim theorems -/

/-- C9: a `readtb` run with `num_procs = 0` is empty for every filesystem,
root list, flag and schedule: the activation loop `for x in range(0)` runs
zero times, so `_path_gen` is never advanced — no `ls` is issued (the
trace is empty, hence even a nonexistent root raises no error), no dump
subprocess is spawned — and the fd set stays empty, so the read loop
exits immediately: no record is ever yielded and the run ends normally,
regardless of how many records the source files contain. -/
theorem c9_readtb_zero_procs_is_empty (fs : FS) (paths : List HPath) (il : Bool)
    (sched : List Nat) :
    (readtbRun fs paths il 0 sched).trace = []
    ∧ (readtbRun fs paths il 0 sched).yields = []
    ∧ (readtbRun fs paths il 0 sched).outcome = ROutcome.ok := by
  have h : readtbRun fs paths il 0 sched
      = ⟨[], [], [], [(0, (pgFilesOf fs il (some ⟨[], paths⟩)).length)], ROutcome.ok⟩ := by
    cases sched with
    | nil => rfl
    | cons i sched' => rfl
  rw [h]
  exact ⟨rfl, rfl, rfl⟩

/-- C2: the concurrency bound of `readtb`, unconditionally (every
filesystem, root list, flag, capacity and schedule, including runs that
abort with an error).  After each step of the initial activation loop the
number of live dump subprocesses is at most `num_procs`; and at every
entry of the read loop the active count is at most `num_procs`, while —
whenever enumerated-but-unactivated paths remain — it equals
`min num_procs (active + pending)`, the pending count being the number of
paths not yet activated: the initial activation fills to capacity and
each retirement backfills exactly one source. -/
theorem c2_readtb_pool_bounded (fs : FS) (paths : List HPath) (il : Bool)
    (np : Nat) (sched : List Nat) :
    ((readtbRun fs paths il np sched).initSnaps.all (fun c => decide (c ≤ np))) = true
    ∧ ((readtbRun fs paths il np sched).snaps.all
        (fun sn => decide (sn.1 ≤ np)
          && (decide (sn.2 = 0) || decide (sn.1 = min np (sn.1 + sn.2))))) = true := by
  cases hini : initActivate fs il np (initState paths) with
  | mk evs rest2 =>
    cases rest2 with
    | mk cs res =>
      have h0 : (initState paths).active.length = 0 := rfl
      cases res with
      | error e =>
        have hrun : readtbRun fs paths il np sched = ⟨evs, [], cs, [], ROutcome.err e⟩ := by
          unfold readtbRun
          rw [hini]
        rw [hrun]
        constructor
        · rw [List.all_eq_true]
          intro c hc
          have := initActivate_snaps fs il np (initState paths) c (by rw [hini]; exact hc)
          simp only [decide_eq_true_eq]
          omega
        · rfl
      | ok s1 =>
        have hrun : readtbRun fs paths il np sched
            = ⟨evs ++ (runLoop fs il sched s1).1, (runLoop fs il sched s1).2.1, cs,
               (runLoop fs il sched s1).2.2.1, (runLoop fs il sched s1).2.2.2⟩ := by
          unfold readtbRun
          rw [hini]
        rw [hrun]
        obtain ⟨-, -, -, hL, hP⟩ := initActivate_props fs il np (initState paths) s1
          (by rw [hini]) (invBase_init paths)
        constructor
        · rw [List.all_eq_true]
          intro c hc
          have := initActivate_snaps fs il np (initState paths) c (by rw [hini]; exact hc)
          simp only [decide_eq_true_eq]
          omega
        · rw [List.all_eq_true]
          intro sn hsn
          have hb := runLoop_snaps fs il np sched s1 (by omega)
            (fun hp => by omega) sn hsn
          simp only [Bool.and_eq_true, Bool.or_eq_true, decide_eq_true_eq]
          refine ⟨hb.1, ?_⟩
          rcases Nat.eq_zero_or_pos sn.2 with hz | hpos
          · left
            exact hz
          · right
            exact hb.2 hpos

/-- C7: the checked command wrapper `_checked_hadoop_fs_command` raises an
IOError carrying the command text and the captured stderr exactly when
the spawned command exits nonzero (Python writes `rcode is not 0`, which
on CPython small-integer caching behaves as `rcode != 0`); on exit code
zero it returns the exit code with the captured stdout and stderr. -/
theorem c7_checked_command_raises_iff_nonzero (cmd : List Char) (res : CmdResult) :
    (checkedFsCommand cmd res = CheckedResult.ioError cmd res.errOut ↔ res.rcode ≠ 0)
    ∧ (res.rcode = 0 →
        checkedFsCommand cmd res = CheckedResult.ok res.rcode res.out res.errOut)
    ∧ (res.rcode ≠ 0 →
        checkedFsCommand cmd res = CheckedResult.ioError cmd res.errOut) := by
  unfold checkedFsCommand
  by_cases h : res.rcode = 0 <;> simp [h]

/-- C4 counterexample: a loader that stays alive through the whole
sequence (it never polls as exited) and then exits with status 1.  The
claim says `writetb` raises whenever the exit code is nonzero; the code
calls `p.wait()` on line 217 of `_hdfs.py` but ignores its result, so
`writetb` returns normally (result `ret 1`, never `childQuit`). -/
theorem c4_counterexample :
    writetb ⟨none, 1, ['o'], ['e']⟩ [(1, 2)]
      = ([(1, 2)], [WEvent.flushEv, WEvent.closeEv, WEvent.waitEv], WResult.ret 1)
    ∧ ∀ o e, (writetb ⟨none, 1, ['o'], ['e']⟩ [(1, 2)]).2.2 ≠ WResult.childQuit o e := by
  constructor
  · decide
  · intro o e h
    have hv : (writetb (⟨none, 1, ['o'], ['e']⟩ : Loader) [(1, 2)]).2.2 = WResult.ret 1 := by
      decide
    rw [hv] at h
    exact WResult.noConfusion h

/-- C4 (amended): for every finite record sequence against a loader that
stays alive throughout, after the sequence is exhausted `writetb` flushes
and closes the loader input pipe and blocks until the loader exits
(`p.wait()` — the returned code is collected by the wait), but it ignores
that exit code: it returns normally whatever the exit status, zero or
not; no error is raised at the end of a write. -/
theorem c4_writetb_waits_but_ignores_exit_code (ld : Loader) (kvs : List KV)
    (halive : ∀ i, i < kvs.length → pollExited ld i = false) :
    writetb ld kvs
      = (kvs, [WEvent.flushEv, WEvent.closeEv, WEvent.waitEv], WResult.ret ld.exitCode) :=
  writetbGo_alive ld kvs 0 (fun j hj => by simpa using halive j hj)

/-- Witness for C4 (amended) at a concrete input: one record, a loader
that never dies and exits with the nonzero status 1 — `writetb` still
returns normally. -/
theorem c4_witness :
    writetb ⟨none, 1, ['u'], ['v']⟩ [(3, 4)]
      = ([(3, 4)], [WEvent.flushEv, WEvent.closeEv, WEvent.waitEv], WResult.ret 1) :=
  c4_writetb_waits_but_ignores_exit_code ⟨none, 1, ['u'], ['v']⟩ [(3, 4)] (by decide)

/-- C5: during `writetb` the loader is polled before each record is
encoded and pushed; if the loader has already exited (first at record
index `d`, with `d` within the sequence), `writetb` fails immediately
with the IOError carrying the captured output of `p.communicate()`; only
the first `d` records were pushed and the rest of the sequence is never
written (and the final flush/wait never happens). -/
theorem c5_writetb_polls_and_fails_fast (ld : Loader) (kvs : List KV) (d : Nat)
    (hd : ld.diesAt = some d) (hlt : d < kvs.length) :
    writetb ld kvs
      = (kvs.take d, [WEvent.closeEv],
         WResult.childQuit ld.stdoutCap ld.stderrCap) := by
  have h := writetbGo_dies ld kvs 0 d hd (Nat.zero_le d) (by simpa using hlt)
  simpa using h

/-- Witness for C5: a 3-record sequence against a loader that dies after
consuming one record (the poll before record index 1 reports it exited)
raises the captured-output error; only the first record was pushed. -/
theorem c5_witness :
    writetb ⟨some 1, 1, ['o'], ['e']⟩ [(1, 1), (2, 2), (3, 3)]
      = ([(1, 1)], [WEvent.closeEv], WResult.childQuit ['o'] ['e']) :=
  c5_writetb_polls_and_fails_fast ⟨some 1, 1, ['o'], ['e']⟩ [(1, 1), (2, 2), (3, 3)] 1
    (by decide) (by decide)

end Hdfs

namespace Hdfs

/-- C3 counterexample: roots `[r, b]` where `r` lists one file `a` (one
record) and `b` does not exist, `num_procs = 1`.  The run raises the
path-not-found error for `b` only when the lazy `_path_gen` reaches `b` —
after the dump subprocess for `a` was already spawned (a Source was
created) and after the record of `a` was already yielded.  This refutes
the claim that an enumeration failure is raised before any Source is
created and before any record is yielded. -/
theorem c3_counterexample :
    (readtbRun fsBad [['r'], ['b']] true 1 [0, 0, 0]).outcome
        = ROutcome.err (Err.noSuchFile ['b'])
    ∧ Event.spawn ['a'] ∈ (readtbRun fsBad [['r'], ['b']] true 1 [0, 0, 0]).trace
    ∧ (readtbRun fsBad [['r'], ['b']] true 1 [0, 0, 0]).yields = [(0, ['a'], 5)] := by
  exact ⟨by decide, by decide, by decide⟩

/-- C3 (amended): an enumeration failure raises the path-not-found error
naming the offending root at the point the lazy enumeration reaches that
root; this precedes every Source creation and every yielded record only
when the failing root is the first one enumerated.  Proved here for that
first-root case (with a positive pool size): the run aborts with the
error naming the root, its whole trace is the one failed `ls` call (so no
subprocess was spawned), and nothing was yielded.  For a later root the
error comes after earlier sources ran (see the counterexample). -/
theorem c3_enumeration_failure_on_first_root_aborts_before_start
    (fs : FS) (r : HPath) (rest : List HPath) (il : Bool) (np : Nat)
    (sched : List Nat) (hbad : lsModel fs r = none) (hnp : 1 ≤ np) :
    (readtbRun fs (r :: rest) il np sched).outcome = ROutcome.err (Err.noSuchFile r)
    ∧ (readtbRun fs (r :: rest) il np sched).trace = [Event.lsCall r]
    ∧ (∀ p, Event.spawn p ∉ (readtbRun fs (r :: rest) il np sched).trace)
    ∧ (readtbRun fs (r :: rest) il np sched).yields = [] := by
  obtain ⟨m, rfl⟩ : ∃ m, np = m + 1 := ⟨np - 1, by omega⟩
  have h := readtbRun_first_root_missing fs rest il m sched hbad
  rw [h]
  refine ⟨rfl, rfl, ?_, rfl⟩
  intro p hp
  simp at hp

/-- Witness for C3 (amended): the missing root `b` placed first, pool
size 1 — the run aborts on the sole `ls` call with nothing spawned and
nothing yielded. -/
theorem c3_witness :
    (readtbRun fsBad [['b']] true 1 [0]).outcome = ROutcome.err (Err.noSuchFile ['b'])
    ∧ (readtbRun fsBad [['b']] true 1 [0]).trace = [Event.lsCall ['b']]
    ∧ (∀ p, Event.spawn p ∉ (readtbRun fsBad [['b']] true 1 [0]).trace)
    ∧ (readtbRun fsBad [['b']] true 1 [0]).yields = [] :=
  c3_enumeration_failure_on_first_root_aborts_before_start fsBad ['b'] [] true 1 [0]
    (by decide) (by decide)

/-- C10: `readtb` contains `yield`, so in Python the call builds a
suspended generator and runs none of the body; the embedding mirrors this
— `readtb` only packages its arguments (it does not even receive the
filesystem, so no enumeration, filtering, spawning or error can happen at
call time).  Root enumeration and its failures surface only when the
returned generator is iterated: against a filesystem whose first root has
no listing, forcing the generator performs the `ls` call and raises the
path-not-found error, which the bare call never did. -/
theorem c10_readtb_call_does_no_work (fs : FS) (r : HPath) (rest : List HPath)
    (il : Bool) (np : Nat) (sched : List Nat)
    (hbad : lsModel fs r = none) (hnp : 1 ≤ np) :
    readtb (r :: rest) il np = ReadtbGen.mk (r :: rest) il np
    ∧ (forceRun (readtb (r :: rest) il np) fs sched).outcome
        = ROutcome.err (Err.noSuchFile r)
    ∧ (forceRun (readtb (r :: rest) il np) fs sched).trace = [Event.lsCall r] := by
  obtain ⟨m, rfl⟩ : ∃ m, np = m + 1 := ⟨np - 1, by omega⟩
  have h : forceRun (readtb (r :: rest) il (m + 1)) fs sched
      = readtbRun fs (r :: rest) il (m + 1) sched := rfl
  rw [h, readtbRun_first_root_missing fs rest il m sched hbad]
  exact ⟨rfl, rfl, rfl⟩

/-- Witness for C10: concrete bad first root, concrete schedule. -/
theorem c10_witness :
    readtb [['b'], ['r']] true 3 = ReadtbGen.mk [['b'], ['r']] true 3
    ∧ (forceRun (readtb [['b'], ['r']] true 3) fsBad [0, 1]).outcome
        = ROutcome.err (Err.noSuchFile ['b'])
    ∧ (forceRun (readtb [['b'], ['r']] true 3) fsBad [0, 1]).trace
        = [Event.lsCall ['b']] :=
  c10_readtb_call_does_no_work fsBad ['b'] [['r']] true 3 [0, 1] (by decide) (by decide)

/-- C6: with `ignore_logs` enabled (the default) the enumeration keeps
exactly the listed paths whose basename does not begin with an
underscore, and with it disabled it keeps every listed path (general
part, for listings whose basenames are nonempty — Python raises an
IndexError on an empty basename).  In particular, for the directory `d`
listing `[d/_S, d/p0]`: the filtering run spawns a dump subprocess only
for `d/p0` and yields only its records, while the non-filtering run
spawns subprocesses for both files. -/
theorem c6_ignore_logs_underscore_filter (fs : FS) (r : HPath) (all : List HPath)
    (hls : lsModel fs r = some all)
    (hbn : ∀ p ∈ all, basename p ≠ []) :
    rootFiles fs true r = all.filter (fun p => (basename p).head? != some '_')
    ∧ rootFiles fs false r = all
    ∧ Event.spawn ['d', '/', 'p', '0'] ∈ (readtbRun fsEx [['d']] true 10 [0, 0, 0]).trace
    ∧ Event.spawn ['d', '/', '_', 'S'] ∉ (readtbRun fsEx [['d']] true 10 [0, 0, 0]).trace
    ∧ (readtbRun fsEx [['d']] true 10 [0, 0, 0]).yields
        = [(0, ['d', '/', 'p', '0'], 1), (0, ['d', '/', 'p', '0'], 2)]
    ∧ Event.spawn ['d', '/', 'p', '0']
        ∈ (readtbRun fsEx [['d']] false 10 [0, 0, 0, 0, 0, 0]).trace
    ∧ Event.spawn ['d', '/', '_', 'S']
        ∈ (readtbRun fsEx [['d']] false 10 [0, 0, 0, 0, 0, 0]).trace := by
  refine ⟨?_, ?_, by decide, by decide, by decide, by decide, by decide⟩
  · simp only [rootFiles, hls, eq_self_iff_true, if_true]
    rw [filterKeep_eq all hbn]
    rfl
  · simp only [rootFiles, hls, Bool.false_eq_true, if_false]

/-- Witness for C6 at the concrete listing `[d/_S, d/p0]` of `fsEx`:
filtering keeps only `d/p0`, no filtering keeps both. -/
theorem c6_witness :
    rootFiles fsEx true ['d']
        = [['d', '/', '_', 'S'], ['d', '/', 'p', '0']].filter
            (fun p => (basename p).head? != some '_')
    ∧ rootFiles fsEx false ['d'] = [['d', '/', '_', 'S'], ['d', '/', 'p', '0']]
    ∧ Event.spawn ['d', '/', 'p', '0'] ∈ (readtbRun fsEx [['d']] true 10 [0, 0, 0]).trace
    ∧ Event.spawn ['d', '/', '_', 'S'] ∉ (readtbRun fsEx [['d']] true 10 [0, 0, 0]).trace
    ∧ (readtbRun fsEx [['d']] true 10 [0, 0, 0]).yields
        = [(0, ['d', '/', 'p', '0'], 1), (0, ['d', '/', 'p', '0'], 2)]
    ∧ Event.spawn ['d', '/', 'p', '0']
        ∈ (readtbRun fsEx [['d']] false 10 [0, 0, 0, 0, 0, 0]).trace
    ∧ Event.spawn ['d', '/', '_', 'S']
        ∈ (readtbRun fsEx [['d']] false 10 [0, 0, 0, 0, 0, 0]).trace :=
  c6_ignore_logs_underscore_filter fsEx ['d']
    [['d', '/', '_', 'S'], ['d', '/', 'p', '0']] (by decide) (by decide)

/-- C8: the `readtb` read loop retires a source only on end-of-stream of
its pipe and never inspects the collected exit status (`p.wait()` on
retirement discards its result).  Hence two runs over worlds with the
same listings and the same per-file record streams, differing only in
the dump subprocesses' exit codes — a crash that closed the pipe after
the same bytes versus a clean finish — produce identical yielded record
sequences, identical error behaviour and identical pool snapshots: no
error is raised and no record is dropped or added because of an abnormal
exit. -/
theorem c8_exit_status_indistinguishable (fs1 fs2 : FS) (paths : List HPath)
    (il : Bool) (np : Nat) (sched : List Nat)
    (hls : fs1.listing = fs2.listing)
    (hrecs : ∀ p, fileRecs fs1 p = fileRecs fs2 p) :
    (readtbRun fs1 paths il np sched).yields = (readtbRun fs2 paths il np sched).yields
    ∧ (readtbRun fs1 paths il np sched).outcome = (readtbRun fs2 paths il np sched).outcome
    ∧ (readtbRun fs1 paths il np sched).snaps = (readtbRun fs2 paths il np sched).snaps :=
  ⟨(ni_readtbRun hls hrecs il paths np sched).1,
   (ni_readtbRun hls hrecs il paths np sched).2.1,
   (ni_readtbRun hls hrecs il paths np sched).2.2.1⟩

/-- Witness for C8: `fsW` and `fsW2` share listings and record streams
and differ only in exit codes (0/0 against 1/2); the runs coincide. -/
theorem c8_witness :
    (readtbRun fsW [['r']] true 2 [0, 1, 0, 1, 1]).yields
        = (readtbRun fsW2 [['r']] true 2 [0, 1, 0, 1, 1]).yields
    ∧ (readtbRun fsW [['r']] true 2 [0, 1, 0, 1, 1]).outcome
        = (readtbRun fsW2 [['r']] true 2 [0, 1, 0, 1, 1]).outcome
    ∧ (readtbRun fsW [['r']] true 2 [0, 1, 0, 1, 1]).snaps
        = (readtbRun fsW2 [['r']] true 2 [0, 1, 0, 1, 1]).snaps :=
  c8_exit_status_indistinguishable fsW fsW2 [['r']] true 2 [0, 1, 0, 1, 1]
    (by decide)
    (fun p => by
      unfold fileRecs fsW fsW2
      simp only [List.lookup]
      rcases hq : (p == ['a']) with _ | _ <;> rcases hq2 : (p == ['b']) with _ | _ <;> simp [hq, hq2])

end Hdfs

namespace Hdfs

/-- C1: a `readtb` run with a positive pool that terminates normally
delivers, whatever the schedule (i.e. whatever order `select` reports
readiness in), exactly the records of the enumerated source files: the
total count is the sum of the per-file record counts, the multiset of
yielded records equals the union (multiset sum) of the per-file record
multisets — every input record exactly once — and for each single source
`i` the subsequence of the merged output produced by that source is
exactly that file's record stream in its production order.  Nothing is
claimed about ordering across different sources: the schedule is
universally quantified. -/
theorem c1_readtb_delivers_each_record_once_in_source_order
    (fs : FS) (paths : List HPath) (il : Bool) (np : Nat) (sched : List Nat)
    (hnp : 1 ≤ np)
    (hok : (readtbRun fs paths il np sched).outcome = ROutcome.ok) :
    (((readtbRun fs paths il np sched).yields.map (fun y => y.2.2) : List Rec) : Multiset Rec)
      = ((enumPaths fs il paths).map
          (fun p => ((fileRecs fs p : List Rec) : Multiset Rec))).sum
    ∧ (readtbRun fs paths il np sched).yields.length
      = ((enumPaths fs il paths).map (fun p => (fileRecs fs p).length)).sum
    ∧ (∀ i, i < (enumPaths fs il paths).length →
        ((readtbRun fs paths il np sched).yields.filter (fun y => y.1 == i)).map
            (fun y => y.2.2)
          = fileRecs fs ((enumPaths fs il paths).getD i [])) := by
  cases hini : initActivate fs il np (initState paths) with
  | mk evs rest2 =>
    cases rest2 with
    | mk cs res =>
      cases res with
      | error e =>
        exfalso
        have hrun : readtbRun fs paths il np sched = ⟨evs, [], cs, [], ROutcome.err e⟩ := by
          unfold readtbRun
          rw [hini]
        rw [hrun] at hok
        simp at hok
      | ok s1 =>
        have hini2 : (initActivate fs il np (initState paths)).2.2 = Except.ok s1 := by
          rw [hini]
        have hrun : readtbRun fs paths il np sched
            = ⟨evs ++ (runLoop fs il sched s1).1, (runLoop fs il sched s1).2.1, cs,
               (runLoop fs il sched s1).2.2.1, (runLoop fs il sched s1).2.2.2⟩ := by
          unfold readtbRun
          rw [hini]
        rw [hrun] at hok ⊢
        simp only [] at hok ⊢
        obtain ⟨hInv, hRem, hMS, -, -⟩ :=
          initActivate_props fs il np (initState paths) s1 hini2 (invBase_init paths)
        have hHE := initActivate_he fs il hnp hini2
        have hms := runLoop_ms fs il sched s1 hHE hok
        rw [hMS] at hms
        have hzero : activeMS (initState paths) = 0 := rfl
        have hpend : pendMS fs il (initState paths)
            = ((enumPaths fs il paths).map
                (fun p => ((fileRecs fs p : List Rec) : Multiset Rec))).sum := rfl
        rw [hzero, hpend, zero_add] at hms
        refine ⟨hms, ?_, ?_⟩
        · have hcard := congrArg Multiset.card hms
          simpa [card_sum_map fs (enumPaths fs il paths)] using hcard
        · intro i hi
          have hfil := runLoop_filter fs il sched s1 hInv hHE hok i
          rw [hRem i] at hfil
          have hrem0 : remAll fs il (initState paths) i
              = ((enumPaths fs il paths).map (fileRecs fs)).getD i [] := by
            unfold remAll
            simp [initState, pgFilesOf, enumPaths]
          rw [hrem0] at hfil
          rw [hfil, getD_map (fileRecs fs) [] [] (enumPaths fs il paths) i hi]

/-- Witness for C1: the world `fsW` (root `r`, files `a` with records
1, 2 and `b` with record 3), pool 2, an interleaving schedule that
terminates normally. -/
theorem c1_witness :
    (((readtbRun fsW [['r']] true 2 [0, 0, 0, 0, 0]).yields.map
        (fun y => y.2.2) : List Rec) : Multiset Rec)
      = ((enumPaths fsW true [['r']]).map
          (fun p => ((fileRecs fsW p : List Rec) : Multiset Rec))).sum
    ∧ (readtbRun fsW [['r']] true 2 [0, 0, 0, 0, 0]).yields.length
      = ((enumPaths fsW true [['r']]).map (fun p => (fileRecs fsW p).length)).sum
    ∧ (∀ i, i < (enumPaths fsW true [['r']]).length →
        ((readtbRun fsW [['r']] true 2 [0, 0, 0, 0, 0]).yields.filter
            (fun y => y.1 == i)).map (fun y => y.2.2)
          = fileRecs fsW ((enumPaths fsW true [['r']]).getD i [])) :=
  c1_readtb_delivers_each_record_once_in_source_order fsW [['r']] true 2 [0, 0, 0, 0, 0]
    (by decide) (by decide)

end Hdfs
